import Mathlib

/-!
Verification of the divminder-crawler repository (Go) against its
natural-language specification.

This file shallowly embeds the parts of the source the claims are about:

* `internal/cache/file_cache.go`   — MD5-keyed JSON file cache with TTL
* `internal/api/alpha_vantage.go`  — Alpha Vantage client and its RateLimiter
* FMP client (`internal/models` part holding `FMPClient`)
* `DividendTableScraper` (parseDate / parseAmount / parseDividendRow / stats)
* `ETFDetailScraper` (`internal/scraper/etf_detail_scraper.go`)
* `ImprovedYieldMaxScraper.filterUpcomingEvents` (`yieldmax_improved.go`)
* the batch runner's worker retry loop and results loop

Go `time.Time` values are embedded as a civil date (year, month, day) plus
seconds-of-day; Go's instant comparison (`Before`/`After`) is embedded by
converting to absolute seconds through the standard civil-from-days /
days-from-civil calendar algorithms (the same arithmetic Go's `time`
package performs).  Machine floats (`float64` amounts) are embedded as
rationals, so claims are settled for the real-number reading of the
arithmetic.  Fallible Go code returns `Option`.
-/

namespace DivMinder

/-- Embeds Go `time.Time` (UTC): a civil date plus seconds into the day.
The Go zero value is January 1, year 1, 00:00:00 UTC. -/
structure GoTime where
  year : Int
  month : Int
  day : Int
  sod : Int
  deriving DecidableEq, Repr

/-- The Go zero `time.Time`. -/
def zeroTime : GoTime := ⟨1, 1, 1, 0⟩

/-- Leap-year rule used by Go's `daysIn`. -/
def isLeap (y : Int) : Bool := y % 4 = 0 && (y % 100 ≠ 0 || y % 400 = 0)

/-- Days in a month, as Go's `daysIn(m, year)`. -/
def daysIn (m y : Int) : Int :=
  if m = 2 then (if isLeap y then 29 else 28)
  else if m = 4 ∨ m = 6 ∨ m = 9 ∨ m = 11 then 30
  else 31

/-- Month normalization performed by Go's `time.Date`: fold an arbitrary
month number into `[1,12]`, carrying whole years. -/
def normMonth (y m : Int) : Int × Int :=
  (y + Int.fdiv (m - 1) 12, Int.fmod (m - 1) 12 + 1)

/-- Days since 1970-01-01 of a civil date (`m` must be in `[1,12]`, `d` may
be out of range and is folded in linearly) — the civil-from-days inverse of
the calendar arithmetic Go's `time` package performs. -/
def daysFromCivil (y m d : Int) : Int :=
  let y' := if m ≤ 2 then y - 1 else y
  let era := Int.fdiv y' 400
  let yoe := y' - era * 400
  let mp := Int.fmod (m + 9) 12
  let doy := (153 * mp + 2) / 5 + d - 1
  let doe := yoe * 365 + yoe / 4 - yoe / 100 + doy
  era * 146097 + doe - 719468

/-- Civil date from days since 1970-01-01. -/
def civilFromDays (z0 : Int) : Int × Int × Int :=
  let z := z0 + 719468
  let era := Int.fdiv z 146097
  let doe := z - era * 146097
  let yoe := (doe - doe / 1460 + doe / 36524 - doe / 146096) / 365
  let y := yoe + era * 400
  let doy := doe - (365 * yoe + yoe / 4 - yoe / 100)
  let mp := (5 * doy + 2) / 153
  let d := doy - (153 * mp + 2) / 5 + 1
  let m := if mp < 10 then mp + 3 else mp - 9
  (if m ≤ 2 then y + 1 else y, m, d)

/-- Embeds Go `time.Date(y, m, d, …)`: normalize the month, then the day.
Go normalizes by converting to absolute time and back; for a day already in
range that conversion is the identity, computed here directly, and the
out-of-range case goes through the calendar conversion. -/
def goDate (y m d sod : Int) : GoTime :=
  let ym := normMonth y m
  if 1 ≤ d ∧ d ≤ daysIn ym.2 ym.1 then ⟨ym.1, ym.2, d, sod⟩
  else
    let c := civilFromDays (daysFromCivil ym.1 ym.2 1 + (d - 1))
    ⟨c.1, c.2.1, c.2.2, sod⟩

/-- Embeds Go `Time.AddDate(years, months, days)`. -/
def goAddDate (t : GoTime) (years months days : Int) : GoTime :=
  goDate (t.year + years) (t.month + months) (t.day + days) t.sod

/-- Absolute seconds of an instant, the quantity Go's `Before`/`After`
compare. -/
def toAbs (t : GoTime) : Int :=
  daysFromCivil t.year t.month t.day * 86400 + t.sod

/-- Embeds Go `a.Before(b)`. -/
def timeBefore (a b : GoTime) : Prop := toAbs a < toAbs b

/-- Embeds Go `a.After(b)`. -/
def timeAfter (a b : GoTime) : Prop := toAbs b < toAbs a

instance (a b : GoTime) : Decidable (timeBefore a b) :=
  inferInstanceAs (Decidable (toAbs a < toAbs b))

instance (a b : GoTime) : Decidable (timeAfter a b) :=
  inferInstanceAs (Decidable (toAbs b < toAbs a))

/-! ### Go `time.Parse` for the layouts the scrapers use

A layout is a token list.  Numeric tokens follow Go's `getnum`: a
zero-padded reference element consumes exactly two digits, an unpadded one
consumes one or two; "2006" consumes exactly four digits; "06" consumes two
digits and applies Go's two-digit-year rule (≥ 69 → 1900s, else 2000s).
Month names match case-insensitively as in Go's `lookup`.  After the tokens
consume the whole input, Go's range validation runs: month in `[1,12]` and
day in `[1, daysIn(month, year)]`. -/

/-- One layout element of a Go time layout string. -/
inductive DTok where
  | lit : Char → DTok
  | month2 | month12 | day2 | day12 | year4 | year2 | monS | monL
  deriving DecidableEq, Repr

/-- Parse state: remaining input and the fields collected so far
(Go's `Parse` defaults: year 0, month 1, day 1). -/
structure PSt where
  rest : List Char
  y : Int
  m : Int
  d : Int
  deriving Repr

/-- Value of a digit character. -/
def digitVal (c : Char) : Int := (c.toNat : Int) - 48

/-- Exactly two digits (Go `getnum` with `fixed = true`). -/
def getnum2 : List Char → Option (Int × List Char)
  | c1 :: c2 :: r =>
    if c1.isDigit ∧ c2.isDigit then some (digitVal c1 * 10 + digitVal c2, r)
    else none
  | _ => none

/-- One or two digits (Go `getnum` with `fixed = false`). -/
def getnum12 : List Char → Option (Int × List Char)
  | [] => none
  | c1 :: r =>
    if c1.isDigit then
      match r with
      | c2 :: r2 =>
        if c2.isDigit then some (digitVal c1 * 10 + digitVal c2, r2)
        else some (digitVal c1, r)
      | [] => some (digitVal c1, [])
    else none

/-- Exactly four digits (Go's "2006" reference year). -/
def getnum4 : List Char → Option (Int × List Char)
  | c1 :: c2 :: c3 :: c4 :: r =>
    if c1.isDigit ∧ c2.isDigit ∧ c3.isDigit ∧ c4.isDigit then
      some (digitVal c1 * 1000 + digitVal c2 * 100 + digitVal c3 * 10 + digitVal c4, r)
    else none
  | _ => none

/-- Case-insensitively match a month name against the input, returning the
rest of the input (Go's `match` inside `lookup`). -/
def matchNameCI : List Char → List Char → Option (List Char)
  | [], r => some r
  | _ :: _, [] => none
  | n :: ns, c :: cs => if c.toLower = n.toLower then matchNameCI ns cs else none

/-- Try each (index, name) pair in order, as Go's `lookup` over a month
name table. -/
def lookupTab : List (Int × String) → List Char → Option (Int × List Char)
  | [], _ => none
  | (i, n) :: t, cs =>
    match matchNameCI n.data cs with
    | some r => some (i, r)
    | none => lookupTab t cs

/-- Go `shortMonthNames`, with their month numbers. -/
def shortMonthTab : List (Int × String) :=
  [(1, "Jan"), (2, "Feb"), (3, "Mar"), (4, "Apr"), (5, "May"), (6, "Jun"),
   (7, "Jul"), (8, "Aug"), (9, "Sep"), (10, "Oct"), (11, "Nov"), (12, "Dec")]

/-- Go `longMonthNames`, with their month numbers. -/
def longMonthTab : List (Int × String) :=
  [(1, "January"), (2, "February"), (3, "March"), (4, "April"), (5, "May"),
   (6, "June"), (7, "July"), (8, "August"), (9, "September"), (10, "October"),
   (11, "November"), (12, "December")]

/-- Consume one layout token. -/
def runTok (st : PSt) (tok : DTok) : Option PSt :=
  match tok with
  | .lit ch =>
    match st.rest with
    | c :: r => if c = ch then some { st with rest := r } else none
    | [] => none
  | .month2 => (getnum2 st.rest).map fun p => { st with m := p.1, rest := p.2 }
  | .month12 => (getnum12 st.rest).map fun p => { st with m := p.1, rest := p.2 }
  | .day2 => (getnum2 st.rest).map fun p => { st with d := p.1, rest := p.2 }
  | .day12 => (getnum12 st.rest).map fun p => { st with d := p.1, rest := p.2 }
  | .year4 => (getnum4 st.rest).map fun p => { st with y := p.1, rest := p.2 }
  | .year2 =>
    (getnum2 st.rest).map fun p =>
      { st with y := if (69 : Int) ≤ p.1 then 1900 + p.1 else 2000 + p.1, rest := p.2 }
  | .monS => (lookupTab shortMonthTab st.rest).map fun p => { st with m := p.1, rest := p.2 }
  | .monL => (lookupTab longMonthTab st.rest).map fun p => { st with m := p.1, rest := p.2 }

/-- Run a whole layout over an input string: consume every token, require
the input exhausted, then apply Go's month/day range validation. -/
def goParseFmt (toks : List DTok) (s : String) : Option (Int × Int × Int) :=
  match toks.foldlM runTok ⟨s.data, 0, 1, 1⟩ with
  | some st =>
    if st.rest = [] ∧ 1 ≤ st.m ∧ st.m ≤ 12 ∧ 1 ≤ st.d ∧ st.d ≤ daysIn st.m st.y then
      some (st.y, st.m, st.d)
    else none
  | none => none

/-- Layout "01/02/2006". -/
def fmtMMDDYYYY : List DTok := [.month2, .lit '/', .day2, .lit '/', .year4]
/-- Layout "1/2/2006". -/
def fmtMDYYYY : List DTok := [.month12, .lit '/', .day12, .lit '/', .year4]
/-- Layout "2006-01-02". -/
def fmtISO : List DTok := [.year4, .lit '-', .month2, .lit '-', .day2]
/-- Layout "Jan 2, 2006". -/
def fmtMonDY : List DTok := [.monS, .lit ' ', .day12, .lit ',', .lit ' ', .year4]
/-- Layout "January 2, 2006". -/
def fmtMonthDY : List DTok := [.monL, .lit ' ', .day12, .lit ',', .lit ' ', .year4]
/-- Layout "02-Jan-2006". -/
def fmtDDMonYYYY : List DTok := [.day2, .lit '-', .monS, .lit '-', .year4]
/-- Layout "01/02/06". -/
def fmtMMDDYY : List DTok := [.month2, .lit '/', .day2, .lit '/', .year2]
/-- Layout "1/2/06". -/
def fmtMDYY : List DTok := [.month12, .lit '/', .day12, .lit '/', .year2]

namespace DividendTableScraper

/-- The layout list of `DividendTableScraper.parseDate`. -/
def dateFormats : List (List DTok) :=
  [fmtMMDDYYYY, fmtMDYYYY, fmtISO, fmtMonDY, fmtMonthDY, fmtDDMonYYYY,
   fmtMMDDYY, fmtMDYY]

/-- The loop body of `DividendTableScraper.parseDate`: try each layout; on
a successful parse add 2000 years when the parsed year is below 100, keep
the date only when its year lies in `[2020, currentYear+1]`, else fall
through to the next layout; return the zero time if no layout fits. -/
def parseDateLoop (cy : Int) (str : String) : List (List DTok) → GoTime
  | [] => zeroTime
  | f :: rest =>
    match goParseFmt f str with
    | some (y, m, d) =>
      let t : GoTime := ⟨y, m, d, 0⟩
      let t := if t.year < 100 then goAddDate t 2000 0 0 else t
      if 2020 ≤ t.year ∧ t.year ≤ cy + 1 then t else parseDateLoop cy str rest
    | none => parseDateLoop cy str rest

/-- Embeds `DividendTableScraper.parseDate` (unnamed part_003, lines
250-281); `cy` is `time.Now().Year()`. -/
def parseDate (cy : Int) (s : String) : GoTime :=
  parseDateLoop cy s.trim dateFormats

end DividendTableScraper

namespace ETFDetailScraper

/-- The layout list of the free function `parseDate` in
`etf_detail_scraper.go`. -/
def dateFormats : List (List DTok) :=
  [fmtMMDDYYYY, fmtMDYYYY, fmtISO, fmtMonDY, fmtMonthDY]

/-- Loop of `etf_detail_scraper.go parseDate`: first layout that parses
wins; no year adjustment and no year range check. -/
def parseDateLoop (s : String) : List (List DTok) → Option GoTime
  | [] => none
  | f :: rest =>
    match goParseFmt f s with
    | some (y, m, d) => some ⟨y, m, d, 0⟩
    | none => parseDateLoop s rest

/-- Embeds `parseDate` of `etf_detail_scraper.go` (lines 166-182); `none`
is the error return. -/
def parseDate (s : String) : Option GoTime := parseDateLoop s dateFormats

end ETFDetailScraper

/-! ### Amount parsing -/

/-- Numeric value of a digit list. -/
def natOfDigits (cs : List Char) : Nat :=
  cs.foldl (fun a c => a * 10 + (c.toNat - 48)) 0

/-- Go `strconv.ParseFloat` restricted to strings of digits and dots (the
only inputs the scrapers feed it): succeeds when there is at least one
digit and at most one dot, failing otherwise, exactly as `ParseFloat`
does on such strings. -/
def parseFloatQ (cs : List Char) : Option ℚ :=
  if cs.all (fun c => c.isDigit ∨ c = '.') ∧ cs.any Char.isDigit ∧
      cs.count '.' ≤ 1 then
    let ip := cs.takeWhile Char.isDigit
    let rest := cs.drop ip.length
    let fp := match rest with
      | '.' :: t => t.takeWhile Char.isDigit
      | _ => []
    some ((natOfDigits ip : ℚ) + (natOfDigits fp : ℚ) / (10 : ℚ) ^ fp.length)
  else none

/-- Greedy run of the regular expression `\d+\.?\d*` starting at a digit:
maximal digits, then an optional dot, then maximal digits. -/
def takeNum (cs : List Char) : List Char :=
  let ds := cs.takeWhile Char.isDigit
  match cs.drop ds.length with
  | '.' :: t2 => ds ++ '.' :: t2.takeWhile Char.isDigit
  | _ => ds

/-- Leftmost match of `(\d+\.?\d*)`, as Go `regexp.FindStringSubmatch`. -/
def findNumber : List Char → Option (List Char)
  | [] => none
  | c :: t => if c.isDigit then some (takeNum (c :: t)) else findNumber t

/-- Embeds `strings.TrimPrefix(s, "$")`. -/
def dropDollar (s : String) : String :=
  match s.data with
  | '$' :: t => String.mk t
  | _ => s

namespace DividendTableScraper

/-- Embeds `DividendTableScraper.parseAmount` (unnamed part_003, lines
283-303): trim, strip a leading dollar sign and all commas, take the first
`\d+\.?\d*` match, and keep the value only when it is positive and below
ten dollars; every other input yields zero. -/
def parseAmount (s : String) : ℚ :=
  let s2 := dropDollar s.trim
  let cs := s2.data.filter (· ≠ ',')
  match findNumber cs with
  | none => 0
  | some mtch =>
    match parseFloatQ mtch with
    | none => 0
    | some a => if 0 < a ∧ a < 10 then a else 0

end DividendTableScraper

namespace ETFDetailScraper

/-- Embeds the free function `parseAmount` of `etf_detail_scraper.go`
(lines 185-193): remove every character that is not a digit or a dot, fail
on an empty remainder, else `strconv.ParseFloat` the remainder.  Note: no
upper bound is applied here. -/
def parseAmount (s : String) : Option ℚ :=
  let cleaned := s.data.filter (fun c => c.isDigit ∨ c = '.')
  if cleaned = [] then none
  else parseFloatQ cleaned

end ETFDetailScraper

/-! ### Dividend events and table rows -/

/-- Embeds `models.DividendEvent` (`internal/models/etf.go`). -/
structure DividendEvent where
  symbol : String
  exDate : GoTime
  payDate : GoTime
  declareDate : GoTime
  amount : ℚ
  group : String
  frequency : String
  yield : ℚ
  deriving DecidableEq, Repr

/-- The zero-valued `models.DividendEvent` with a symbol, as the scrapers
initialize it. -/
def emptyEvent (symbol : String) : DividendEvent :=
  ⟨symbol, zeroTime, zeroTime, zeroTime, 0, "", "", 0⟩

namespace DividendTableScraper

/-- The 4-or-5-cell fallback loop of
`DividendTableScraper.parseDividendRow`: first positive amount wins; first
non-zero date becomes the ex-date, a later one the pay date. -/
def rowLoop (cy : Int) : List (Nat × String) → DividendEvent → DividendEvent
  | [], ev => ev
  | (i, text) :: rest, ev =>
    if 0 < parseAmount text ∧ ev.amount = 0 then
      rowLoop cy rest { ev with amount := parseAmount text }
    else if parseDate cy text ≠ zeroTime then
      if ev.exDate = zeroTime then
        rowLoop cy rest { ev with exDate := parseDate cy text }
      else if ev.payDate = zeroTime ∧ 0 < i then
        rowLoop cy rest { ev with payDate := parseDate cy text }
      else rowLoop cy rest ev
    else rowLoop cy rest ev

/-- The final validation of `parseDividendRow`: keep the event only when
it has a positive amount and a non-zero ex-date, defaulting a missing pay
date to ex-date + 1 day and a missing declare date to ex-date - 1 day. -/
def finalizeRow (ev : DividendEvent) : Option DividendEvent :=
  if 0 < ev.amount ∧ ev.exDate ≠ zeroTime then
    let ev := if ev.payDate = zeroTime then
        { ev with payDate := goAddDate ev.exDate 0 0 1 } else ev
    let ev := if ev.declareDate = zeroTime ∧ ev.exDate ≠ zeroTime then
        { ev with declareDate := goAddDate ev.exDate 0 0 (-1) } else ev
    some ev
  else none

/-- Embeds `DividendTableScraper.parseDividendRow` (unnamed part_003,
lines 183-241) on the list of cell texts; `cy` is the current year used by
`parseDate`. -/
def parseDividendRow (cy : Int) (cells : List String) (symbol : String) :
    Option DividendEvent :=
  let cellTexts := cells.map String.trim
  if 6 ≤ cellTexts.length then
    finalizeRow
      { emptyEvent symbol with
        amount := parseAmount (cellTexts.getD 1 "")
        declareDate := parseDate cy (cellTexts.getD 2 "")
        exDate := parseDate cy (cellTexts.getD 3 "")
        payDate := parseDate cy (cellTexts.getD 5 "") }
  else if 4 ≤ cellTexts.length then
    finalizeRow (rowLoop cy cellTexts.enum (emptyEvent symbol))
  else
    finalizeRow (emptyEvent symbol)

end DividendTableScraper

namespace ETFDetailScraper

/-- The cell loop of `parseDividendRow` in `etf_detail_scraper.go`: each
cell is tried both as a date (first hit is the ex-date, second the pay
date) and as an amount (every positive parse overwrites). -/
def rowLoop : List String → DividendEvent → DividendEvent
  | [], ev => ev
  | cell :: rest, ev =>
    let cell := cell.trim
    let ev := match parseDate cell with
      | some d =>
        if ev.exDate = zeroTime then { ev with exDate := d }
        else if ev.payDate = zeroTime then { ev with payDate := d }
        else ev
      | none => ev
    let ev := match parseAmount cell with
      | some a => if 0 < a then { ev with amount := a } else ev
      | none => ev
    rowLoop rest ev

/-- Embeds the free function `parseDividendRow` of
`etf_detail_scraper.go` (lines 127-163). -/
def parseDividendRow (cells : List String) (symbol : String) :
    Option DividendEvent :=
  if cells.length < 3 then none
  else
    let ev := rowLoop cells (emptyEvent symbol)
    if ev.exDate ≠ zeroTime ∧ 0 < ev.amount then some ev else none

end ETFDetailScraper

/-! ### Dividend statistics (`ScrapeDividendHistory`, part_003 lines 151-177) -/

/-- Embeds `models.DividendStats`. -/
structure DividendStats where
  totalPayments : Nat
  averageAmount : ℚ
  lastAmount : ℚ
  yearToDateTotal : ℚ
  trailingYearTotal : ℚ
  changePercent : ℚ
  deriving DecidableEq, Repr

namespace DividendTableScraper

/-- Embeds the statistics block of
`DividendTableScraper.ScrapeDividendHistory` (unnamed part_003, lines
151-177): run only when there is at least one event; `yearStart` is
January 1 of the current year in UTC; an empty event list leaves the
zero-valued stats. -/
def computeStats (now : GoTime) (events : List DividendEvent) : DividendStats :=
  match events with
  | [] => ⟨0, 0, 0, 0, 0, 0⟩
  | e0 :: rest =>
    let yearStart : GoTime := ⟨now.year, 1, 1, 0⟩
    let total := ((e0 :: rest).map DividendEvent.amount).sum
    let ytd :=
      (((e0 :: rest).filter (fun e => timeAfter e.exDate yearStart)).map
        DividendEvent.amount).sum
    let change : ℚ := match rest with
      | [] => 0
      | e1 :: _ => (e0.amount - e1.amount) / e1.amount * 100
    ⟨(e0 :: rest).length, total / ((e0 :: rest).length : ℚ), e0.amount,
      ytd, total, change⟩

end DividendTableScraper

/-! ### FMP client (`FMPClient.GetDividendHistory`) -/

/-- Embeds `FMPDividendResponse` (string dates; amounts as numbers). -/
structure FMPDividendResponse where
  symbol : String
  date : String
  label : String
  adjDividend : ℚ
  dividend : ℚ
  recordDate : String
  paymentDate : String
  declarationDate : String
  deriving DecidableEq, Repr

/-- Go `time.Parse("2006-01-02", s)` as used by the FMP client. -/
def goParseISO (s : String) : Option GoTime :=
  match goParseFmt fmtISO s with
  | some (y, m, d) => some ⟨y, m, d, 0⟩
  | none => none

namespace FMPClient

/-- One iteration of the conversion loop of `FMPClient.GetDividendHistory`
(lines 249-298 of the FMP client file): skip records whose ex-date does
not parse or is before the cutoff; default a missing or unparsable payment
date to ex-date + 14 days and a missing or unparsable declaration date to
ex-date - 7 days; the event amount is the response's `AdjDividend`. -/
def convertOne (cutoff : GoTime) (symbol : String) (div : FMPDividendResponse) :
    Option DividendEvent :=
  match goParseISO div.date with
  | none => none
  | some exDate =>
    if timeBefore exDate cutoff then none
    else
      let payDate0 := if div.paymentDate ≠ "" then
          (goParseISO div.paymentDate).getD zeroTime else zeroTime
      let declareDate0 := if div.declarationDate ≠ "" then
          (goParseISO div.declarationDate).getD zeroTime else zeroTime
      let payDate := if payDate0 = zeroTime then goAddDate exDate 0 0 14 else payDate0
      let declareDate := if declareDate0 = zeroTime then
          goAddDate exDate 0 0 (-7) else declareDate0
      some ⟨symbol, exDate, payDate, declareDate, div.adjDividend, "", "", 0⟩

/-- The whole conversion loop of `FMPClient.GetDividendHistory`: the
cutoff is `time.Now().AddDate(-years, 0, 0)`; the Go loop's
`append`/`continue` shape is this `filterMap`. -/
def getDividendHistoryEvents (now : GoTime) (symbol : String) (years : Int)
    (hist : List FMPDividendResponse) : List DividendEvent :=
  hist.filterMap (convertOne (goAddDate now (-years) 0 0) symbol)

end FMPClient

/-! ### Rate limiting (`internal/api/alpha_vantage.go` and the FMP client) -/

/-- The externally visible actions of an API client call that matter for
rate limiting. -/
inductive ApiAction where
  | acquireToken
  | httpGet
  deriving DecidableEq, Repr

/-- Every `httpGet` in the trace happens after some `acquireToken`. -/
def requestsGuarded : Bool → List ApiAction → Bool
  | _, [] => true
  | _, ApiAction.acquireToken :: t => requestsGuarded true t
  | seen, ApiAction.httpGet :: t => seen && requestsGuarded seen t

/-- `NewRateLimiter(5, time.Minute)` in `NewAlphaVantageClient`:
bucket capacity in tokens. -/
def alphaVantageRateLimiterMaxCalls : Nat := 5

/-- `NewRateLimiter(5, time.Minute)`: refill interval in seconds (one
token is offered per tick). -/
def alphaVantageRateLimiterIntervalSec : Nat := 60

/-- The refill tick of `RateLimiter` (alpha_vantage.go lines 46-57): add
one token unless the bucket is full. -/
def rateLimiterRefill (cap tokens : Nat) : Nat :=
  if tokens < cap then tokens + 1 else tokens

/-- Action trace of `AlphaVantageClient.GetETFOverview` (lines 141-184):
on a cache hit no request is made; on a miss the client first blocks on
`rateLimiter.Wait()` and then issues the HTTP request. -/
def avGetETFOverviewActions (cacheHit : Bool) : List ApiAction :=
  if cacheHit then [] else [ApiAction.acquireToken, ApiAction.httpGet]

/-- Action trace of `FMPClient.GetDividendHistory` (lines 199-307 of the
FMP client file): on a cache miss the client issues the HTTP request
directly — the `FMPClient` struct has no rate limiter field and performs
no token acquisition. -/
def fmpGetDividendHistoryActions (cacheHit : Bool) : List ApiAction :=
  if cacheHit then [] else [ApiAction.httpGet]

/-! ### Upcoming-events filter (`yieldmax_improved.go`) -/

/-- Embeds `models.GroupSchedule` (only what `Schedule` needs). -/
structure GroupSchedule where
  group : String
  frequency : String
  etfs : List String
  nextExDate : String
  nextPayDate : String
  events : List DividendEvent
  deriving Repr

/-- Embeds `models.Schedule`. -/
structure Schedule where
  updatedAt : GoTime
  groups : List GroupSchedule
  upcoming : List DividendEvent
  deriving Repr

namespace ImprovedYieldMaxScraper

/-- Embeds `filterUpcomingEvents` (yieldmax_improved.go lines 318-330):
keep events whose ex-date is strictly after `now` and strictly before
`now.AddDate(0, 0, days)`. -/
def filterUpcomingEvents (now : GoTime) (events : List DividendEvent)
    (days : Int) : List DividendEvent :=
  let cutoff := goAddDate now 0 0 days
  events.filter (fun e => timeAfter e.exDate now ∧ timeBefore e.exDate cutoff)

/-- The `Schedule` assembly of `GetScheduleImproved` (lines 104-113): the
`Upcoming` field is `filterUpcomingEvents(upcomingEvents, 30)`. -/
def mkSchedule (now : GoTime) (groups : List GroupSchedule)
    (upcomingEvents : List DividendEvent) : Schedule :=
  ⟨now, groups, filterUpcomingEvents now upcomingEvents 30⟩

end ImprovedYieldMaxScraper

/-! ### MD5 (`crypto/md5` as used by `generateCacheKey`)

Bytes are `Nat` below 256, 32-bit words `Nat` with explicit `% 2^32`. -/

/-- 2^32. -/
def m32 : Nat := 4294967296

/-- 32-bit complement of a word below 2^32. -/
def not32 (x : Nat) : Nat := 4294967295 - x

/-- 32-bit left rotation. -/
def rotl32 (x c : Nat) : Nat := (x * 2 ^ c + x / 2 ^ (32 - c)) % m32

/-- The MD5 sine-derived constant table. -/
def md5K : List Nat :=
  [0xd76aa478, 0xe8c7b756, 0x242070db, 0xc1bdceee,
   0xf57c0faf, 0x4787c62a, 0xa8304613, 0xfd469501,
   0x698098d8, 0x8b44f7af, 0xffff5bb1, 0x895cd7be,
   0x6b901122, 0xfd987193, 0xa679438e, 0x49b40821,
   0xf61e2562, 0xc040b340, 0x265e5a51, 0xe9b6c7aa,
   0xd62f105d, 0x02441453, 0xd8a1e681, 0xe7d3fbc8,
   0x21e1cde6, 0xc33707d6, 0xf4d50d87, 0x455a14ed,
   0xa9e3e905, 0xfcefa3f8, 0x676f02d9, 0x8d2a4c8a,
   0xfffa3942, 0x8771f681, 0x6d9d6122, 0xfde5380c,
   0xa4beea44, 0x4bdecfa9, 0xf6bb4b60, 0xbebfbc70,
   0x289b7ec6, 0xeaa127fa, 0xd4ef3085, 0x04881d05,
   0xd9d4d039, 0xe6db99e5, 0x1fa27cf8, 0xc4ac5665,
   0xf4292244, 0x432aff97, 0xab9423a7, 0xfc93a039,
   0x655b59c3, 0x8f0ccc92, 0xffeff47d, 0x85845dd1,
   0x6fa87e4f, 0xfe2ce6e0, 0xa3014314, 0x4e0811a1,
   0xf7537e82, 0xbd3af235, 0x2ad7d2bb, 0xeb86d391]

/-- The MD5 per-round rotation amounts. -/
def md5S : List Nat :=
  [7, 12, 17, 22, 7, 12, 17, 22, 7, 12, 17, 22, 7, 12, 17, 22,
   5, 9, 14, 20, 5, 9, 14, 20, 5, 9, 14, 20, 5, 9, 14, 20,
   4, 11, 16, 23, 4, 11, 16, 23, 4, 11, 16, 23, 4, 11, 16, 23,
   6, 10, 15, 21, 6, 10, 15, 21, 6, 10, 15, 21, 6, 10, 15, 21]

/-- `n` little-endian bytes of `v`. -/
def leBytes (n v : Nat) : List Nat :=
  (List.range n).map fun i => v / 2 ^ (8 * i) % 256

/-- MD5 padding: append 0x80, zero-fill to 56 mod 64, then the 8-byte
little-endian bit length. -/
def md5pad (msg : List Nat) : List Nat :=
  let k := (119 - msg.length % 64) % 64
  msg ++ [0x80] ++ List.replicate k 0 ++ leBytes 8 (msg.length * 8)

/-- Split a byte list into 64-byte chunks. -/
def chunks64 (l : List Nat) : List (List Nat) :=
  if h : l = [] then []
  else
    have : (l.drop 64).length < l.length := by
      cases l with
      | nil => exact absurd rfl h
      | cons a t => simp [List.length_drop]; omega
    l.take 64 :: chunks64 (l.drop 64)
termination_by l.length

/-- The 16 little-endian 32-bit words of a 64-byte chunk. -/
def chunkWords (chunk : List Nat) (j : Nat) : Nat :=
  chunk.getD (4 * j) 0 + chunk.getD (4 * j + 1) 0 * 256 +
    chunk.getD (4 * j + 2) 0 * 65536 + chunk.getD (4 * j + 3) 0 * 16777216

/-- One MD5 round. -/
def md5Step (M : Nat → Nat) (st : Nat × Nat × Nat × Nat) (i : Nat) :
    Nat × Nat × Nat × Nat :=
  let a := st.1
  let b := st.2.1
  let c := st.2.2.1
  let d := st.2.2.2
  let fg : Nat × Nat :=
    if i < 16 then ((b &&& c) ||| (not32 b &&& d), i)
    else if i < 32 then ((d &&& b) ||| (not32 d &&& c), (5 * i + 1) % 16)
    else if i < 48 then (b ^^^ c ^^^ d, (3 * i + 5) % 16)
    else (c ^^^ (b ||| not32 d), (7 * i) % 16)
  let f := (fg.1 + a + md5K.getD i 0 + M fg.2) % m32
  (d, (b + rotl32 f (md5S.getD i 0)) % m32, b, c)

/-- Process one 64-byte chunk. -/
def md5Chunk (st : Nat × Nat × Nat × Nat) (chunk : List Nat) :
    Nat × Nat × Nat × Nat :=
  let r := (List.range 64).foldl (md5Step (chunkWords chunk)) st
  ((st.1 + r.1) % m32, (st.2.1 + r.2.1) % m32, (st.2.2.1 + r.2.2.1) % m32,
    (st.2.2.2 + r.2.2.2) % m32)

/-- MD5 digest (16 bytes) of a byte list. -/
def md5 (msg : List Nat) : List Nat :=
  let st := (chunks64 (md5pad msg)).foldl md5Chunk
    (0x67452301, 0xefcdab89, 0x98badcfe, 0x10325476)
  leBytes 4 st.1 ++ leBytes 4 st.2.1 ++ leBytes 4 st.2.2.1 ++ leBytes 4 st.2.2.2

/-- Lowercase hex digit. -/
def hexDigit (n : Nat) : Char :=
  if n < 10 then Char.ofNat (48 + n) else Char.ofNat (87 + n)

/-- Lowercase hex of a byte list, as Go `fmt.Sprintf("%x", …)` on bytes. -/
def hexOfBytes (bs : List Nat) : String :=
  String.mk (bs.foldr (fun b acc => hexDigit (b / 16) :: hexDigit (b % 16) :: acc) [])

/-- UTF-8 bytes of a character, as Go's `[]byte(string)`. -/
def utf8Bytes (c : Char) : List Nat :=
  let n := c.toNat
  if n < 128 then [n]
  else if n < 2048 then [192 + n / 64, 128 + n % 64]
  else if n < 65536 then [224 + n / 4096, 128 + n / 64 % 64, 128 + n % 64]
  else [240 + n / 262144, 128 + n / 4096 % 64, 128 + n / 64 % 64, 128 + n % 64]

/-- UTF-8 bytes of a string. -/
def strBytes (s : String) : List Nat := (s.data.map utf8Bytes).flatten

/-! ### File cache (`internal/cache/file_cache.go`) -/

/-- In-memory JSON values, as decoded into Go `interface\x7b\x7d`. -/
inductive JsonVal where
  | null : JsonVal
  | num : ℚ → JsonVal
  | str : String → JsonVal
  | arr : List JsonVal → JsonVal

/-- Embeds `cache.CacheEntry`; times are absolute seconds. -/
structure CacheEntry where
  data : JsonVal
  createdAt : Int
  expiresAt : Int
  key : String

/-- The state of one cache file: absent, present but not decodable as a
`CacheEntry`, or decodable. -/
inductive CacheFile where
  | missing : CacheFile
  | corrupt : CacheFile
  | entry : CacheEntry → CacheFile

/-- The observable outcome of `FileCache.Get`: the returned boolean, the
returned error, the state of the cache file afterwards, and the value
stored into `target` (if any). -/
structure GetResult (τ : Type) where
  hit : Bool
  err : Option String
  fileAfter : CacheFile
  target : Option τ

namespace FileCache

/-- Embeds `FileCache.generateCacheKey` (file_cache.go lines 46-57):
join the parameters onto the prefix with underscores, MD5 the combined
string, and format prefix, the lowercase-hex digest and ".json". -/
def generateCacheKey (pre : String) (params : List String) : String :=
  let combined := params.foldl (fun acc p => acc ++ "_" ++ p) pre
  pre ++ "_" ++ hexOfBytes (md5 (strBytes combined)) ++ ".json"

/-- Embeds `FileCache.Get` (file_cache.go lines 95-140).  `decodeTarget`
is `json.Unmarshal` into the caller's `target`; `json.Marshal` of the
in-memory `entry.Data` value always succeeds, so the only conversion
failure is the unmarshal into `target`.  A missing file is a plain miss;
an undecodable or expired file is removed and is a plain miss; a
non-expired entry whose data does not unmarshal into `target` returns
`false` with an error and the file kept. -/
def Get {τ : Type} (decodeTarget : JsonVal → Option τ) (now : Int)
    (file : CacheFile) : GetResult τ :=
  match file with
  | .missing => ⟨false, none, .missing, none⟩
  | .corrupt => ⟨false, none, .missing, none⟩
  | .entry e =>
    if e.expiresAt < now then ⟨false, none, .missing, none⟩
    else
      match decodeTarget e.data with
      | none => ⟨false, some "failed to unmarshal cached data", .entry e, none⟩
      | some v => ⟨true, none, .entry e, some v⟩

/-- Embeds the entry built by `FileCache.Set` (file_cache.go lines
64-93): created now, expiring at now plus the cache's TTL. -/
def Set (now ttl : Int) (key : String) (data : JsonVal) : CacheEntry :=
  ⟨data, now, now + ttl, key⟩

end FileCache

/-! ### Batch runner (unnamed part_001, second file) -/

/-- `retryAttempts = 2` (part_001 line 259), commented in the source as
"Number of retry attempts for failed scrapes". -/
def retryAttempts : Nat := 2

/-- The worker's attempt loop (part_001 lines 362-372), counting scrape
calls: `for attempt := 0; attempt < retryAttempts; attempt++` calls the
scraper, breaking on the first success; the first component is the
reported result, the second the number of scrape calls made. -/
def workerAttemptsFrom {α : Type} (scrape : Nat → Except String α) :
    Nat → Except String α → Except String α × Nat
  | 0, last => (last, 0)
  | n + 1, _ =>
    match scrape (retryAttempts - (n + 1)) with
    | .ok h => (.ok h, 1)
    | .error e =>
      let r := workerAttemptsFrom scrape n (.error e)
      (r.1, r.2 + 1)

/-- The result the worker reports for one symbol, with the number of
scrape attempts made. -/
def workerScrape {α : Type} (scrape : Nat → Except String α) :
    Except String α × Nat :=
  workerAttemptsFrom scrape retryAttempts (.error "")

/-- One entry of the `results` channel (part_001 lines 262-266). -/
structure ScrapeResult where
  symbol : String
  history : Option JsonVal
  err : Option String

/-- The accumulating state of the main results loop (part_001 lines
306-334), plus the JSON files written. -/
structure RunState where
  successCount : Nat
  failureCount : Nat
  failedETFs : List String
  files : List String

/-- The output filename for one symbol:
`filepath.Join(outputDir, fmt.Sprintf("%s_dividend_history.json", symbol))`. -/
def outFileName (dir sym : String) : String :=
  dir ++ "/" ++ sym ++ "_dividend_history.json"

/-- One iteration of the results loop (part_001 lines 312-334): a scrape
error or a failed save logs, records the symbol as failed and continues;
a successful save writes the symbol's JSON file.  `saveOk` is the outcome
of `saveToJSON` for a filename. -/
def processResult (saveOk : String → Bool) (dir : String) (st : RunState)
    (r : ScrapeResult) : RunState :=
  match r.err with
  | some _ =>
    { st with failureCount := st.failureCount + 1,
              failedETFs := st.failedETFs ++ [r.symbol] }
  | none =>
    let filename := outFileName dir r.symbol
    if saveOk filename then
      { st with successCount := st.successCount + 1,
                files := st.files ++ [filename] }
    else
      { st with failureCount := st.failureCount + 1,
                failedETFs := st.failedETFs ++ [r.symbol] }

/-- The whole results loop over the drained `results` channel. -/
def processResults (saveOk : String → Bool) (dir : String)
    (results : List ScrapeResult) : RunState :=
  results.foldl (processResult saveOk dir) ⟨0, 0, [], []⟩

/-! ## Theorems -/

/-- C10: every event in the `Upcoming` list of the `Schedule` returned by
`ImprovedYieldMaxScraper.GetScheduleImproved` has an ex-date strictly after
the current time and strictly before the current time plus 30 days, and an
event outside that window never appears in `Upcoming`. -/
theorem claim_C10_upcoming_window (now : GoTime) (groups : List GroupSchedule)
    (events : List DividendEvent) (e : DividendEvent) :
    (e ∈ (ImprovedYieldMaxScraper.mkSchedule now groups events).upcoming →
      timeAfter e.exDate now ∧ timeBefore e.exDate (goAddDate now 0 0 30)) ∧
    (¬ (timeAfter e.exDate now ∧ timeBefore e.exDate (goAddDate now 0 0 30)) →
      e ∉ (ImprovedYieldMaxScraper.mkSchedule now groups events).upcoming) := by
  constructor
  · intro h
    simp only [ImprovedYieldMaxScraper.mkSchedule,
      ImprovedYieldMaxScraper.filterUpcomingEvents, List.mem_filter,
      decide_eq_true_eq] at h
    exact h.2
  · intro hw h
    simp only [ImprovedYieldMaxScraper.mkSchedule,
      ImprovedYieldMaxScraper.filterUpcomingEvents, List.mem_filter,
      decide_eq_true_eq] at h
    exact hw h.2

/-- C2 evidence (code_bug): the worker's retry loop runs
`for attempt := 0; attempt < retryAttempts; attempt++` with
`retryAttempts = 2`, so at most two scrape calls are ever made per symbol,
and a permanently failing scrape is reported after exactly two calls — not
the three (one attempt plus two retries) the claim states. -/
theorem claim_C2_worker_two_attempts :
    (∀ (α : Type) (scrape : Nat → Except String α), (workerScrape scrape).2 ≤ 2) ∧
    workerScrape (fun _ => (Except.error "network error" : Except String Unit)) =
      (Except.error "network error", 2) ∧
    retryAttempts = 2 := by
  refine ⟨?_, rfl, rfl⟩
  intro α scrape
  simp only [workerScrape, retryAttempts, workerAttemptsFrom]
  cases scrape 0 <;> cases scrape 1 <;> simp [workerAttemptsFrom]

/-- C5 counterexample: on a cache miss, `FMPClient.GetDividendHistory`
issues its HTTP request without any token acquisition — the FMP client has
no rate limiter — so it is false that every request of either external API
client is preceded by acquiring a token from a token-bucket rate limiter. -/
theorem claim_C5_fmp_unguarded_request :
    fmpGetDividendHistoryActions false = [ApiAction.httpGet] ∧
    requestsGuarded false (fmpGetDividendHistoryActions false) = false :=
  ⟨rfl, rfl⟩

/-- C5 amended: every request the Alpha Vantage client sends is preceded
by acquiring a token from its token-bucket rate limiter — a bucket of 5
tokens refilled one token per minute, a tick adding a token only when the
bucket is below capacity; the FMP client has no rate limiter. -/
theorem claim_C5_av_guarded_requests :
    (∀ cacheHit : Bool,
      requestsGuarded false (avGetETFOverviewActions cacheHit) = true) ∧
    alphaVantageRateLimiterMaxCalls = 5 ∧
    alphaVantageRateLimiterIntervalSec = 60 ∧
    (∀ tokens : Nat, tokens < alphaVantageRateLimiterMaxCalls →
      rateLimiterRefill alphaVantageRateLimiterMaxCalls tokens = tokens + 1) ∧
    (∀ tokens : Nat, ¬ tokens < alphaVantageRateLimiterMaxCalls →
      rateLimiterRefill alphaVantageRateLimiterMaxCalls tokens = tokens) := by
  refine ⟨?_, rfl, rfl, ?_, ?_⟩
  · intro cacheHit; cases cacheHit <;> rfl
  · intro tokens ht; simp [rateLimiterRefill, ht]
  · intro tokens ht; simp [rateLimiterRefill, ht]

/-- C1 counterexample: a cache file that exists, decodes as a valid
`CacheEntry` (data `5`, expiring at time 10) and is read at time 5 — so
the current time is not after `ExpiresAt` — yet `Get` reports a miss with
a non-nil error, because the stored data does not unmarshal into the
caller's target (here a string target). -/
theorem claim_C1_fresh_entry_unmarshal_failure :
    (FileCache.Get (fun j => match j with | JsonVal.str s => some s | _ => none)
        5 (CacheFile.entry ⟨JsonVal.num 5, 0, 10, "k"⟩)).hit = false ∧
    (FileCache.Get (fun j => match j with | JsonVal.str s => some s | _ => none)
        5 (CacheFile.entry ⟨JsonVal.num 5, 0, 10, "k"⟩)).err =
      some "failed to unmarshal cached data" ∧
    ¬ ((10 : Int) < 5) :=
  ⟨rfl, rfl, by decide⟩

/-- C1 amended: `Get` reports a hit iff the cache file exists, decodes as
a valid `CacheEntry`, the current time is not after `ExpiresAt`, and the
stored data unmarshals into the target; in the miss cases file-absent,
file-undecodable and entry-expired it returns `(false, nil)`, removing the
undecodable or expired file; a fresh entry whose data does not unmarshal
into the target yields `(false, non-nil error)` instead.  `Set` stamps
`ExpiresAt` as the write time plus the configured TTL. -/
theorem claim_C1_get_hit_characterization :
    (∀ (τ : Type) (dec : JsonVal → Option τ) (now : Int),
      FileCache.Get dec now CacheFile.missing =
        ⟨false, none, CacheFile.missing, none⟩ ∧
      FileCache.Get dec now CacheFile.corrupt =
        ⟨false, none, CacheFile.missing, none⟩ ∧
      (∀ e : CacheEntry, e.expiresAt < now →
        FileCache.Get dec now (CacheFile.entry e) =
          ⟨false, none, CacheFile.missing, none⟩) ∧
      (∀ file : CacheFile, (FileCache.Get dec now file).hit = true ↔
        ∃ e : CacheEntry, file = CacheFile.entry e ∧ ¬ e.expiresAt < now ∧
          (dec e.data).isSome)) ∧
    (∀ (now ttl : Int) (key : String) (d : JsonVal),
      (FileCache.Set now ttl key d).expiresAt = now + ttl ∧
      (FileCache.Set now ttl key d).createdAt = now) := by
  constructor
  · intro τ dec now
    refine ⟨rfl, rfl, ?_, ?_⟩
    · intro e he; simp [FileCache.Get, he]
    · intro file
      cases file with
      | missing => simp [FileCache.Get]
      | corrupt => simp [FileCache.Get]
      | entry e =>
        by_cases he : e.expiresAt < now
        · simp [FileCache.Get, he]
        · cases hd : dec e.data with
          | none => simp [FileCache.Get, he, hd]
          | some v => simp [FileCache.Get, he, hd]; omega
  · intro now ttl key d; exact ⟨rfl, rfl⟩

/-- The parameter fold of `generateCacheKey` joins every parameter onto
the prefix with an underscore. -/
theorem foldl_underscore (ps : List String) (a : String) :
    ps.foldl (fun acc p => acc ++ "_" ++ p) a =
      a ++ String.join (ps.map fun p => "_" ++ p) := by
  induction ps generalizing a with
  | nil => simp [String.join]
  | cons p t ih =>
    simp only [List.foldl, List.map, ih]
    apply String.ext
    simp [String.data_append, String.join_eq]

/-- C7: `generateCacheKey` returns the prefix, an underscore, the
lowercase-hex MD5 digest of the prefix followed by each parameter
prepended with an underscore, and ".json"; it is a pure function of the
prefix and parameters, so equal inputs give the same cache filename. -/
theorem claim_C7_generateCacheKey_format :
    (∀ (pre : String) (params : List String),
      FileCache.generateCacheKey pre params =
        pre ++ "_" ++
          hexOfBytes (md5 (strBytes
            (pre ++ String.join (params.map fun p => "_" ++ p)))) ++ ".json") ∧
    (∀ (pre1 pre2 : String) (params1 params2 : List String),
      pre1 = pre2 → params1 = params2 →
      FileCache.generateCacheKey pre1 params1 =
        FileCache.generateCacheKey pre2 params2) := by
  constructor
  · intro pre params
    simp only [FileCache.generateCacheKey, foldl_underscore]
  · intro pre1 pre2 params1 params2 h1 h2
    rw [h1, h2]

/-- C7 witness: the determinism conjunct at a concrete prefix and
parameter list. -/
theorem claim_C7_witness :
    FileCache.generateCacheKey "etf_metadata" ["TSLY"] =
      FileCache.generateCacheKey "etf_metadata" ["TSLY"] :=
  claim_C7_generateCacheKey_format.2 "etf_metadata" "etf_metadata"
    ["TSLY"] ["TSLY"] rfl rfl

/-- Whether the results loop writes a file for a result: the scrape
succeeded and the save succeeded. -/
def keepResult (saveOk : String → Bool) (dir : String) (r : ScrapeResult) : Bool :=
  r.err.isNone && saveOk (outFileName dir r.symbol)

/-- The results loop, run from any initial state, appends one filename per
kept result and one failed symbol per dropped result, in order. -/
theorem processResults_char (saveOk : String → Bool) (dir : String)
    (results : List ScrapeResult) : ∀ init : RunState,
    (results.foldl (processResult saveOk dir) init).files =
      init.files ++ (results.filter (keepResult saveOk dir)).map
        (fun r => outFileName dir r.symbol) ∧
    (results.foldl (processResult saveOk dir) init).failedETFs =
      init.failedETFs ++ (results.filter (fun r => !keepResult saveOk dir r)).map
        ScrapeResult.symbol := by
  induction results with
  | nil => intro init; simp
  | cons r t ih =>
    intro init
    have h := ih (processResult saveOk dir init r)
    cases herr : r.err with
    | some err =>
      have hk : keepResult saveOk dir r = false := by simp [keepResult, herr]
      have hstep : processResult saveOk dir init r =
          { init with failureCount := init.failureCount + 1,
                      failedETFs := init.failedETFs ++ [r.symbol] } := by
        simp [processResult, herr]
      rw [hstep] at h
      rw [List.foldl_cons, hstep]
      simp [List.filter_cons, hk, h.1, h.2, List.append_assoc]
    | none =>
      cases hsv : saveOk (outFileName dir r.symbol) with
      | true =>
        have hk : keepResult saveOk dir r = true := by simp [keepResult, herr, hsv]
        have hstep : processResult saveOk dir init r =
            { init with successCount := init.successCount + 1,
                        files := init.files ++ [outFileName dir r.symbol] } := by
          simp [processResult, herr, hsv]
        rw [hstep] at h
        rw [List.foldl_cons, hstep]
        simp [List.filter_cons, hk, h.1, h.2, List.append_assoc]
      | false =>
        have hk : keepResult saveOk dir r = false := by simp [keepResult, herr, hsv]
        have hstep : processResult saveOk dir init r =
            { init with failureCount := init.failureCount + 1,
                        failedETFs := init.failedETFs ++ [r.symbol] } := by
          simp [processResult, herr, hsv]
        rw [hstep] at h
        rw [List.foldl_cons, hstep]
        simp [List.filter_cons, hk, h.1, h.2, List.append_assoc]

/-- The output filename determines the symbol. -/
theorem outFileName_injective (dir : String) :
    Function.Injective (outFileName dir) := by
  intro a b h
  have hd := congrArg String.data h
  simp only [outFileName, String.data_append, List.append_assoc] at hd
  exact String.ext (List.append_cancel_right
    (List.append_cancel_left (List.append_cancel_left hd)))

/-- With pairwise distinct symbols, the written filenames are pairwise
distinct. -/
theorem processResults_files_nodup (saveOk : String → Bool) (dir : String)
    (results : List ScrapeResult)
    (hnd : (results.map ScrapeResult.symbol).Nodup) :
    (processResults saveOk dir results).files.Nodup := by
  rcases processResults_char saveOk dir results ⟨0, 0, [], []⟩ with ⟨hf, _⟩
  rw [processResults, hf]
  simp only [List.nil_append]
  have h1 : ((results.filter (keepResult saveOk dir)).map ScrapeResult.symbol).Nodup :=
    List.Nodup.sublist
      (List.Sublist.map ScrapeResult.symbol (List.filter_sublist results)) hnd
  have h2 : (results.filter (keepResult saveOk dir)).map
      (fun r => outFileName dir r.symbol) =
      ((results.filter (keepResult saveOk dir)).map ScrapeResult.symbol).map
        (outFileName dir) := by
    rw [List.map_map]; rfl
  rw [h2]
  exact List.Nodup.map (outFileName_injective dir) h1

/-- C8: a symbol whose scrape ultimately failed, or whose save failed, is
recorded in the failed list and gets no JSON file; a symbol whose scrape
and save succeeded gets exactly one file named
`<SYMBOL>_dividend_history.json` in the output directory; and every result
is processed — each contributes either a file or a failed-list entry. -/
theorem claim_C8_results_loop (saveOk : String → Bool) (dir : String)
    (results : List ScrapeResult) (r : ScrapeResult)
    (hnd : (results.map ScrapeResult.symbol).Nodup) (hr : r ∈ results) :
    (r.err ≠ none →
      r.symbol ∈ (processResults saveOk dir results).failedETFs ∧
      outFileName dir r.symbol ∉ (processResults saveOk dir results).files) ∧
    (r.err = none → saveOk (outFileName dir r.symbol) = false →
      r.symbol ∈ (processResults saveOk dir results).failedETFs ∧
      outFileName dir r.symbol ∉ (processResults saveOk dir results).files) ∧
    (r.err = none → saveOk (outFileName dir r.symbol) = true →
      (processResults saveOk dir results).files.count (outFileName dir r.symbol) = 1) ∧
    (processResults saveOk dir results).files.length +
      (processResults saveOk dir results).failedETFs.length = results.length := by
  rcases processResults_char saveOk dir results ⟨0, 0, [], []⟩ with ⟨hf, hfl⟩
  have hf' : (processResults saveOk dir results).files =
      (results.filter (keepResult saveOk dir)).map
        (fun x => outFileName dir x.symbol) := by
    rw [processResults, hf]; simp
  have hfl' : (processResults saveOk dir results).failedETFs =
      (results.filter (fun x => !keepResult saveOk dir x)).map
        ScrapeResult.symbol := by
    rw [processResults, hfl]; simp
  have hnotfile : keepResult saveOk dir r = false →
      outFileName dir r.symbol ∉ (processResults saveOk dir results).files := by
    intro hk hmem
    rw [hf'] at hmem
    rcases List.mem_map.1 hmem with ⟨r2, hr2, hname⟩
    have hsym : r2.symbol = r.symbol := outFileName_injective dir hname
    have : r2 = r :=
      List.inj_on_of_nodup_map hnd (List.mem_of_mem_filter hr2) hr hsym
    subst this
    rw [List.mem_filter] at hr2
    rw [hr2.2] at hk
    cases hk
  have hfailed : keepResult saveOk dir r = false →
      r.symbol ∈ (processResults saveOk dir results).failedETFs := by
    intro hk
    rw [hfl']
    exact List.mem_map.2 ⟨r, List.mem_filter.2 ⟨hr, by rw [hk]; rfl⟩, rfl⟩
  refine ⟨?_, ?_, ?_, ?_⟩
  · intro herr
    have hk : keepResult saveOk dir r = false := by
      simp [keepResult, Option.isNone_iff_eq_none]
      intro h; exact absurd h herr
    exact ⟨hfailed hk, hnotfile hk⟩
  · intro herr hsv
    have hk : keepResult saveOk dir r = false := by simp [keepResult, herr, hsv]
    exact ⟨hfailed hk, hnotfile hk⟩
  · intro herr hsv
    have hk : keepResult saveOk dir r = true := by simp [keepResult, herr, hsv]
    have hmem : outFileName dir r.symbol ∈ (processResults saveOk dir results).files := by
      rw [hf']
      exact List.mem_map.2 ⟨r, List.mem_filter.2 ⟨hr, hk⟩, rfl⟩
    exact List.count_eq_one_of_mem (processResults_files_nodup saveOk dir results hnd) hmem
  · rw [hf', hfl']
    simp only [List.length_map]
    exact (List.length_eq_length_filter_add (keepResult saveOk dir)).symm

/-- C8 witness: a two-result run — one success, one scrape failure — at
concrete inputs. -/
theorem claim_C8_witness :
    (let results : List ScrapeResult :=
      [⟨"CONY", none, none⟩, ⟨"TSLY", none, some "scrape failed"⟩]
    let r : ScrapeResult := ⟨"TSLY", none, some "scrape failed"⟩
    let saveOk : String → Bool := fun _ => true
    (r.err ≠ none →
      r.symbol ∈ (processResults saveOk "data/dividends" results).failedETFs ∧
      outFileName "data/dividends" r.symbol ∉
        (processResults saveOk "data/dividends" results).files) ∧
    (r.err = none → saveOk (outFileName "data/dividends" r.symbol) = false →
      r.symbol ∈ (processResults saveOk "data/dividends" results).failedETFs ∧
      outFileName "data/dividends" r.symbol ∉
        (processResults saveOk "data/dividends" results).files) ∧
    (r.err = none → saveOk (outFileName "data/dividends" r.symbol) = true →
      (processResults saveOk "data/dividends" results).files.count
        (outFileName "data/dividends" r.symbol) = 1) ∧
    (processResults saveOk "data/dividends" results).files.length +
      (processResults saveOk "data/dividends" results).failedETFs.length =
      results.length) :=
  claim_C8_results_loop (fun _ => true) "data/dividends"
    [⟨"CONY", none, none⟩, ⟨"TSLY", none, some "scrape failed"⟩]
    ⟨"TSLY", none, some "scrape failed"⟩ (by decide)
    (List.mem_cons_of_mem _ (List.mem_cons_self _ _))

/-- C9: for a non-empty scraped history, the stats block sets
`TotalPayments` to the number of events, `AverageAmount` to the sum of
amounts over the count, `LastAmount` to the first event's amount,
`YearToDateTotal` to the sum of amounts of events with ex-date after
January 1 of the current year (UTC), `TrailingYearTotal` to the sum of all
amounts, and, with at least two events, `ChangePercent` to
(first - second) / second * 100. -/
theorem claim_C9_stats (now : GoTime) (events : List DividendEvent)
    (hne : events ≠ []) :
    (DividendTableScraper.computeStats now events).totalPayments = events.length ∧
    (DividendTableScraper.computeStats now events).averageAmount =
      (events.map DividendEvent.amount).sum / (events.length : ℚ) ∧
    (DividendTableScraper.computeStats now events).lastAmount =
      (events.getD 0 (emptyEvent "")).amount ∧
    (DividendTableScraper.computeStats now events).yearToDateTotal =
      ((events.filter (fun e => timeAfter e.exDate ⟨now.year, 1, 1, 0⟩)).map
        DividendEvent.amount).sum ∧
    (DividendTableScraper.computeStats now events).trailingYearTotal =
      (events.map DividendEvent.amount).sum ∧
    (2 ≤ events.length →
      (DividendTableScraper.computeStats now events).changePercent =
        ((events.getD 0 (emptyEvent "")).amount -
          (events.getD 1 (emptyEvent "")).amount) /
          (events.getD 1 (emptyEvent "")).amount * 100) := by
  rcases List.exists_cons_of_ne_nil hne with ⟨e0, t, rfl⟩
  cases t with
  | nil =>
    refine ⟨rfl, rfl, rfl, rfl, rfl, ?_⟩
    intro h2; simp at h2
  | cons e1 t2 =>
    exact ⟨rfl, rfl, rfl, rfl, rfl, fun _ => rfl⟩

/-- C9 witness: the stats at a concrete two-event history. -/
theorem claim_C9_witness :
    (let ev1 : DividendEvent :=
      ⟨"CONY", ⟨2025, 6, 15, 0⟩, ⟨2025, 6, 16, 0⟩, ⟨2025, 6, 14, 0⟩,
        (1 : ℚ) / 2, "GroupC", "monthly", 0⟩
    let ev2 : DividendEvent :=
      ⟨"CONY", ⟨2025, 5, 15, 0⟩, ⟨2025, 5, 16, 0⟩, ⟨2025, 5, 14, 0⟩,
        (2 : ℚ) / 5, "GroupC", "monthly", 0⟩
    let now : GoTime := ⟨2025, 10, 12, 0⟩
    (DividendTableScraper.computeStats now [ev1, ev2]).totalPayments =
      ([ev1, ev2] : List DividendEvent).length ∧
    (DividendTableScraper.computeStats now [ev1, ev2]).averageAmount =
      (([ev1, ev2] : List DividendEvent).map DividendEvent.amount).sum /
        (([ev1, ev2] : List DividendEvent).length : ℚ) ∧
    (DividendTableScraper.computeStats now [ev1, ev2]).lastAmount =
      (([ev1, ev2] : List DividendEvent).getD 0 (emptyEvent "")).amount ∧
    (DividendTableScraper.computeStats now [ev1, ev2]).yearToDateTotal =
      ((([ev1, ev2] : List DividendEvent).filter
        (fun e => timeAfter e.exDate ⟨now.year, 1, 1, 0⟩)).map
        DividendEvent.amount).sum ∧
    (DividendTableScraper.computeStats now [ev1, ev2]).trailingYearTotal =
      (([ev1, ev2] : List DividendEvent).map DividendEvent.amount).sum ∧
    (2 ≤ ([ev1, ev2] : List DividendEvent).length →
      (DividendTableScraper.computeStats now [ev1, ev2]).changePercent =
        ((([ev1, ev2] : List DividendEvent).getD 0 (emptyEvent "")).amount -
          (([ev1, ev2] : List DividendEvent).getD 1 (emptyEvent "")).amount) /
          (([ev1, ev2] : List DividendEvent).getD 1 (emptyEvent "")).amount * 100)) :=
  claim_C9_stats ⟨2025, 10, 12, 0⟩ _ (by decide)

/-- A successful Go parse passed Go's month/day range validation. -/
theorem goParseFmt_valid {toks : List DTok} {s : String} {y m d : Int}
    (h : goParseFmt toks s = some (y, m, d)) :
    1 ≤ m ∧ m ≤ 12 ∧ 1 ≤ d ∧ d ≤ daysIn m y := by
  unfold goParseFmt at h
  split at h
  · next st hf =>
    split at h
    · next hc =>
      have h2 : (st.y, st.m, st.d) = (y, m, d) := Option.some.inj h
      have hy : st.y = y := congrArg Prod.fst h2
      have hm : st.m = m := congrArg (fun p => p.2.1) h2
      have hd : st.d = d := congrArg (fun p => p.2.2) h2
      rw [hy, hm, hd] at hc
      exact ⟨hc.2.1, hc.2.2.1, hc.2.2.2.1, hc.2.2.2.2⟩
    · cases h
  · cases h

/-- A date parsed by the FMP client's `time.Parse("2006-01-02", s)` is a
valid civil date at midnight. -/
theorem goParseISO_valid {s : String} {t : GoTime} (h : goParseISO s = some t) :
    1 ≤ t.month ∧ t.month ≤ 12 ∧ 1 ≤ t.day ∧
      t.day ≤ daysIn t.month t.year ∧ t.sod = 0 := by
  unfold goParseISO at h
  cases hp : goParseFmt fmtISO s with
  | none => rw [hp] at h; cases h
  | some ymd =>
    rw [hp] at h
    obtain ⟨y, m, d⟩ := ymd
    have ht : t = ⟨y, m, d, 0⟩ := (Option.some.inj h).symm
    subst ht
    have hv := goParseFmt_valid hp
    exact ⟨hv.1, hv.2.1, hv.2.2.1, hv.2.2.2, rfl⟩

/-- C6: every dividend event produced by `FMPClient.GetDividendHistory`
comes from a response record whose date field parses as a valid
YYYY-MM-DD date, that date (the event's ex-date) is not before
`now.AddDate(-years, 0, 0)`, the amount is the response's `AdjDividend`,
and a missing or unparsable payment (declaration) date defaults the pay
date to ex-date + 14 days (the declare date to ex-date - 7 days). -/
theorem claim_C6_fmp_event_shape (now : GoTime) (symbol : String) (years : Int)
    (hist : List FMPDividendResponse) (e : DividendEvent)
    (he : e ∈ FMPClient.getDividendHistoryEvents now symbol years hist) :
    ∃ div ∈ hist,
      goParseISO div.date = some e.exDate ∧
      (1 ≤ e.exDate.month ∧ e.exDate.month ≤ 12 ∧ 1 ≤ e.exDate.day ∧
        e.exDate.day ≤ daysIn e.exDate.month e.exDate.year ∧ e.exDate.sod = 0) ∧
      ¬ timeBefore e.exDate (goAddDate now (-years) 0 0) ∧
      e.amount = div.adjDividend ∧
      ((div.paymentDate = "" ∨ goParseISO div.paymentDate = none) →
        e.payDate = goAddDate e.exDate 0 0 14) ∧
      ((div.declarationDate = "" ∨ goParseISO div.declarationDate = none) →
        e.declareDate = goAddDate e.exDate 0 0 (-7)) := by
  rw [FMPClient.getDividendHistoryEvents, List.mem_filterMap] at he
  obtain ⟨div, hdiv, hconv⟩ := he
  refine ⟨div, hdiv, ?_⟩
  unfold FMPClient.convertOne at hconv
  split at hconv
  · cases hconv
  · next exDate hdate =>
    split at hconv
    · cases hconv
    · next hbef =>
      simp only [Option.some.injEq] at hconv
      subst hconv
      have hvalid := goParseISO_valid hdate
      refine ⟨hdate, hvalid, hbef, rfl, ?_, ?_⟩
      · intro hmiss
        show (if (if div.paymentDate ≠ "" then
            (goParseISO div.paymentDate).getD zeroTime else zeroTime) = zeroTime
          then goAddDate exDate 0 0 14
          else if div.paymentDate ≠ "" then
            (goParseISO div.paymentDate).getD zeroTime else zeroTime) =
          goAddDate exDate 0 0 14
        rcases hmiss with hempty | hnoparse
        · simp [hempty]
        · simp [hnoparse]
      · intro hmiss
        show (if (if div.declarationDate ≠ "" then
            (goParseISO div.declarationDate).getD zeroTime else zeroTime) = zeroTime
          then goAddDate exDate 0 0 (-7)
          else if div.declarationDate ≠ "" then
            (goParseISO div.declarationDate).getD zeroTime else zeroTime) =
          goAddDate exDate 0 0 (-7)
        rcases hmiss with hempty | hnoparse
        · simp [hempty]
        · simp [hnoparse]

/-- C6 witness: one concrete response record with missing payment and
declaration dates. -/
theorem claim_C6_witness :
    (let div : FMPDividendResponse :=
      ⟨"TSLY", "2025-06-15", "", (1 : ℚ) / 2, (1 : ℚ) / 2, "", "", ""⟩
    let e : DividendEvent :=
      ⟨"TSLY", ⟨2025, 6, 15, 0⟩, ⟨2025, 6, 29, 0⟩, ⟨2025, 6, 8, 0⟩,
        (1 : ℚ) / 2, "", "", 0⟩
    ∃ d ∈ [div],
      goParseISO d.date = some e.exDate ∧
      (1 ≤ e.exDate.month ∧ e.exDate.month ≤ 12 ∧ 1 ≤ e.exDate.day ∧
        e.exDate.day ≤ daysIn e.exDate.month e.exDate.year ∧ e.exDate.sod = 0) ∧
      ¬ timeBefore e.exDate (goAddDate ⟨2025, 10, 12, 0⟩ (-1) 0 0) ∧
      e.amount = d.adjDividend ∧
      ((d.paymentDate = "" ∨ goParseISO d.paymentDate = none) →
        e.payDate = goAddDate e.exDate 0 0 14) ∧
      ((d.declarationDate = "" ∨ goParseISO d.declarationDate = none) →
        e.declareDate = goAddDate e.exDate 0 0 (-7))) :=
  claim_C6_fmp_event_shape ⟨2025, 10, 12, 0⟩ "TSLY" 1
    [⟨"TSLY", "2025-06-15", "", (1 : ℚ) / 2, (1 : ℚ) / 2, "", "", ""⟩]
    ⟨"TSLY", ⟨2025, 6, 15, 0⟩, ⟨2025, 6, 29, 0⟩, ⟨2025, 6, 8, 0⟩,
      (1 : ℚ) / 2, "", "", 0⟩ (by set_option maxRecDepth 10000 in with_unfolding_all decide)

/-- `DividendTableScraper.parseAmount` yields zero or a value strictly
between zero and ten. -/
theorem tableParseAmount_range (s : String) :
    DividendTableScraper.parseAmount s = 0 ∨
      (0 < DividendTableScraper.parseAmount s ∧
        DividendTableScraper.parseAmount s < 10) := by
  unfold DividendTableScraper.parseAmount
  dsimp only
  split
  · left; rfl
  · split
    · left; rfl
    · split_ifs with hr
      · right; exact hr
      · left; rfl

/-- The fallback cell loop only ever installs an amount that came from
`parseAmount` as a positive value, so the amount stays zero or within
`(0, 10)`. -/
theorem rowLoop_amount_inv (cy : Int) :
    ∀ (l : List (Nat × String)) (ev : DividendEvent),
      (ev.amount = 0 ∨ (0 < ev.amount ∧ ev.amount < 10)) →
      ((DividendTableScraper.rowLoop cy l ev).amount = 0 ∨
        (0 < (DividendTableScraper.rowLoop cy l ev).amount ∧
          (DividendTableScraper.rowLoop cy l ev).amount < 10))
  | [], _, h => h
  | (i, text) :: rest, ev, h => by
    unfold DividendTableScraper.rowLoop
    by_cases hc : 0 < DividendTableScraper.parseAmount text ∧ ev.amount = 0
    · rw [if_pos hc]
      apply rowLoop_amount_inv
      rcases tableParseAmount_range text with h0 | hlt
      · rw [h0] at hc; exact absurd hc.1 (lt_irrefl 0)
      · right; exact hlt
    · rw [if_neg hc]
      split_ifs <;> apply rowLoop_amount_inv <;> simpa using h

/-- `finalizeRow` keeps the amount and only succeeds on a positive one. -/
theorem finalizeRow_amount {ev ev2 : DividendEvent}
    (h : DividendTableScraper.finalizeRow ev = some ev2) :
    ev2.amount = ev.amount ∧ 0 < ev.amount := by
  unfold DividendTableScraper.finalizeRow at h
  split at h
  · next hc =>
    simp only [Option.some.injEq] at h
    subst h
    refine ⟨?_, hc.1⟩
    split_ifs <;> rfl
  · cases h

/-- C3 amended: the `DividendTableScraper` amount parser enforces the
sanity bounds — it yields an amount only when positive and below ten
dollars — and every event its row parser produces has an amount in
`(0, 10)`.  (The `ETFDetailScraper` variant applies no upper bound; see
the counterexample.) -/
theorem claim_C3_table_amount_bounds :
    (∀ s : String, DividendTableScraper.parseAmount s = 0 ∨
      (0 < DividendTableScraper.parseAmount s ∧
        DividendTableScraper.parseAmount s < 10)) ∧
    (∀ (cy : Int) (cells : List String) (symbol : String) (ev : DividendEvent),
      DividendTableScraper.parseDividendRow cy cells symbol = some ev →
      0 < ev.amount ∧ ev.amount < 10) := by
  refine ⟨tableParseAmount_range, ?_⟩
  intro cy cells symbol ev h
  unfold DividendTableScraper.parseDividendRow at h
  dsimp only at h
  split at h
  · have ha := finalizeRow_amount h
    rcases tableParseAmount_range ((cells.map String.trim).getD 1 "") with h0 | hlt
    · rw [ha.1]
      simp only [h0] at ha
      exact absurd ha.2 (lt_irrefl 0)
    · rw [ha.1]; exact hlt
  · split at h
    · have ha := finalizeRow_amount h
      rcases rowLoop_amount_inv cy (cells.map String.trim).enum (emptyEvent symbol)
          (Or.inl rfl) with h0 | hlt
      · rw [ha.1]
        simp only [h0] at ha
        exact absurd ha.2 (lt_irrefl 0)
      · rw [ha.1]; exact hlt
    · have ha := finalizeRow_amount h
      exact absurd ha.2 (by simp [emptyEvent])

/-- C3 counterexample: the `ETFDetailScraper` amount parser has no upper
bound — it accepts $12.50 — and its row parser produces a dividend event
with an amount of ten dollars or more from a concrete row. -/
theorem claim_C3_detail_amount_over_ten :
    ETFDetailScraper.parseAmount "$12.50" = some ((25 : ℚ) / 2) ∧
    (10 : ℚ) ≤ (25 : ℚ) / 2 ∧
    ETFDetailScraper.parseDividendRow ["01/02/2024", "$12.50", "foo"] "TSLY" =
      some ⟨"TSLY", ⟨2024, 1, 2, 0⟩, zeroTime, zeroTime, (25 : ℚ) / 2,
        "", "", 0⟩ := by
  refine ⟨?_, ?_, ?_⟩
  · with_unfolding_all decide
  · with_unfolding_all decide
  · set_option maxRecDepth 10000 in with_unfolding_all decide

/-- Go's month normalization is the identity on months already in
`[1, 12]`. -/
theorem normMonth_id {y m : Int} (h1 : 1 ≤ m) (h2 : m ≤ 12) :
    normMonth y m = (y, m) := by
  have hq : Int.fdiv (m - 1) 12 = 0 := by interval_cases m <;> decide
  have hr : Int.fmod (m - 1) 12 = m - 1 := by interval_cases m <;> decide
  unfold normMonth
  rw [hq, hr]
  simp [Prod.ext_iff]

/-- Moving 2000 years preserves the month lengths (2000 is a multiple of
400, so leap years line up). -/
theorem daysIn_shift2000 (m y : Int) : daysIn m (y + 2000) = daysIn m y := by
  unfold daysIn isLeap
  have h4 : (y + 2000) % 4 = y % 4 := by omega
  have h100 : (y + 2000) % 100 = y % 100 := by omega
  have h400 : (y + 2000) % 400 = y % 400 := by omega
  rw [h4, h100, h400]

/-- On a valid civil date, `AddDate(2000, 0, 0)` just adds 2000 to the
year. -/
theorem addDate2000_valid {y m d : Int} (h1 : 1 ≤ m) (h2 : m ≤ 12)
    (h3 : 1 ≤ d) (h4 : d ≤ daysIn m y) :
    goAddDate ⟨y, m, d, 0⟩ 2000 0 0 = ⟨y + 2000, m, d, 0⟩ := by
  unfold goAddDate goDate
  dsimp only
  simp only [add_zero]
  rw [normMonth_id h1 h2]
  dsimp only
  rw [daysIn_shift2000]
  rw [if_pos ⟨h3, h4⟩]

/-- The adjusted parse year: Go's `t.AddDate(2000, 0, 0)` applied when the
parsed year is below 100. -/
theorem parse_adjust_eq {y m d : Int} (hv : 1 ≤ m ∧ m ≤ 12 ∧ 1 ≤ d ∧ d ≤ daysIn m y) :
    (if (⟨y, m, d, 0⟩ : GoTime).year < 100 then goAddDate ⟨y, m, d, 0⟩ 2000 0 0
      else (⟨y, m, d, 0⟩ : GoTime)) =
      ⟨(if y < 100 then y + 2000 else y), m, d, 0⟩ := by
  by_cases hy : y < 100
  · rw [if_pos hy, if_pos hy]
    exact addDate2000_valid hv.1 hv.2.1 hv.2.2.1 hv.2.2.2
  · rw [if_neg hy, if_neg hy]

/-- A `GoTime` with a year of at least 2020 is not the zero time. -/
theorem ne_zeroTime_of_year {t : GoTime} (h : 2020 ≤ t.year) : t ≠ zeroTime := by
  intro hEq
  have := congrArg GoTime.year hEq
  rw [this] at h
  simp [zeroTime] at h

/-- The layout loop of `DividendTableScraper.parseDate` returns a
non-zero time exactly when some layout in the list parses the input and
the (2000-adjusted) year lies in `[2020, cy + 1]`. -/
theorem parseDateLoop_ne_zero (cy : Int) (str : String) :
    ∀ fs : List (List DTok),
      (DividendTableScraper.parseDateLoop cy str fs ≠ zeroTime ↔
        ∃ f ∈ fs, ∃ y m d : Int, goParseFmt f str = some (y, m, d) ∧
          2020 ≤ (if y < 100 then y + 2000 else y) ∧
          (if y < 100 then y + 2000 else y) ≤ cy + 1)
  | [] => by simp [DividendTableScraper.parseDateLoop]
  | f :: rest => by
    rw [DividendTableScraper.parseDateLoop]
    cases hp : goParseFmt f str with
    | none =>
      simp only [hp]
      rw [parseDateLoop_ne_zero cy str rest]
      constructor
      · rintro ⟨f2, hf2, hy⟩
        exact ⟨f2, List.mem_cons_of_mem _ hf2, hy⟩
      · rintro ⟨f2, hf2, y, m, d, hpp, hr1, hr2⟩
        rcases List.mem_cons.1 hf2 with rfl | hf2'
        · rw [hp] at hpp; cases hpp
        · exact ⟨f2, hf2', y, m, d, hpp, hr1, hr2⟩
    | some ymd =>
      obtain ⟨y, m, d⟩ := ymd
      have hv := goParseFmt_valid hp
      simp only [hp]
      dsimp only
      rw [parse_adjust_eq hv]
      dsimp only
      by_cases hr : 2020 ≤ (if y < 100 then y + 2000 else y) ∧
          (if y < 100 then y + 2000 else y) ≤ cy + 1
      · rw [if_pos hr]
        refine iff_of_true (ne_zeroTime_of_year hr.1) ?_
        exact ⟨f, List.mem_cons_self _ _, y, m, d, hp, hr.1, hr.2⟩
      · rw [if_neg hr]
        rw [parseDateLoop_ne_zero cy str rest]
        constructor
        · rintro ⟨f2, hf2, hy⟩
          exact ⟨f2, List.mem_cons_of_mem _ hf2, hy⟩
        · rintro ⟨f2, hf2, y2, m2, d2, hpp, hr1, hr2⟩
          rcases List.mem_cons.1 hf2 with rfl | hf2'
          · rw [hp] at hpp
            have h2 : (y, m, d) = (y2, m2, d2) := Option.some.inj hpp
            have hy2 : y = y2 := congrArg Prod.fst h2
            subst hy2
            exact absurd ⟨hr1, hr2⟩ hr
          · exact ⟨f2, hf2', y2, m2, d2, hpp, hr1, hr2⟩

/-- C4: `DividendTableScraper.parseDate` returns a non-zero date iff its
trimmed input matches one of the listed layouts and, after adding 2000
years to a parsed year below 100, the resulting year lies between 2020
and the current year plus one inclusive; every other input yields the
zero time. -/
theorem claim_C4_parseDate_characterization (cy : Int) (s : String) :
    DividendTableScraper.parseDate cy s ≠ zeroTime ↔
      ∃ f ∈ DividendTableScraper.dateFormats, ∃ y m d : Int,
        goParseFmt f s.trim = some (y, m, d) ∧
        2020 ≤ (if y < 100 then y + 2000 else y) ∧
        (if y < 100 then y + 2000 else y) ≤ cy + 1 :=
  parseDateLoop_ne_zero cy s.trim DividendTableScraper.dateFormats

end DivMinder
